import Mathlib

/-
  Verification of the stream-gap DF engine (galpy/df/streamgapdf.py).

  Shallow embedding conventions:
  * float arithmetic is modelled exactly, over ℚ where the code is pure
    comparisons/field arithmetic and over ℝ where it uses exp/erf/sqrt;
  * numpy arrays are Lists (or index functions ℕ → ℝ for the breakpoint
    engine); boolean-mask assignment `out[mask] = vals` is modelled by an
    explicit scatter function with the same semantics;
  * fallible code (raise ValueError) returns Except String _.
-/

set_option maxHeartbeats 1000000

namespace StreamGap

/-! ### impact_check_range (streamgapdf.py lines 20-35)

The decorator wraps an interpolated-kick evaluation `func`.  The scalar
branch returns 0.0 when the query is `>= _deltaAngleTrackImpact` or `<= 0`,
and the raw evaluation otherwise.  The array branch builds a zero array,
computes the mask `goodIndx = (x < _deltaAngleTrackImpact) * (x > 0)` and
scatters `func(x[goodIndx])` into the masked positions. -/

/-- Scalar branch of the `impact_check_range` decorator:
`if da >= delta or da <= 0: return 0.0 else: return func(da)`. -/
def impact_check_range (delta : ℚ) (f : ℚ → ℚ) (da : ℚ) : ℚ :=
  if delta ≤ da ∨ da ≤ 0 then 0 else f da

/-- Boolean-mask assignment `base[mask] = vals` of numpy: positions of `base`
where `mask` is `true` receive the successive elements of `vals`; other
positions keep their `base` entry.  (In every use `mask` and `base` have the
same length and `vals` has one element per `true` in `mask`.) -/
def scatterMask {α : Type} : List Bool → List α → List α → List α
  | [], _, base => base
  | _ :: _, _, [] => []
  | true :: ms, v :: vs, _ :: bs => v :: scatterMask ms vs bs
  | true :: ms, [], b :: bs => b :: scatterMask ms [] bs
  | false :: ms, vs, b :: bs => b :: scatterMask ms vs bs

/-- Array branch of the `impact_check_range` decorator:
`out = zeros(len(x)); good = (x < delta)*(x > 0); out[good] = func(x[good])`. -/
def impact_check_range_arr (delta : ℚ) (f : ℚ → ℚ) (xs : List ℚ) : List ℚ :=
  scatterMask (xs.map fun x => decide (x < delta ∧ 0 < x))
    ((xs.filter fun x => decide (x < delta ∧ 0 < x)).map f)
    (List.replicate xs.length 0)

/-! ### pOparapar (streamgapdf.py lines 219-258)

`out = zeros_like(Opar); ts = apar/Opar; apar_impact = apar - Opar*timpact;
dOpar_impact = _kick_interpdOpar(apar_impact); Opar_b4impact = Opar - dOpar_impact;
afterIndx = (ts < timpact)*(ts >= 0);
out[afterIndx] = smooth.pOparapar(Opar[afterIndx], apar);
out[~afterIndx] = smooth.pOparapar(Opar_b4impact[~afterIndx], apar_impact[~afterIndx],
                                   tdisrupt = tdisrupt - timpact)`.

The smooth-stream density (the parent class, not part of this file) is an
elementwise function parameter `smooth Opar apar tdisrupt`; the range-checked
kick `_kick_interpdOpar` is applied elementwise (its array branch agrees with
the scalar branch at every position, `impact_check_range_arr_getD`), and `raw`
stands for the raw spline `_kick_interpdOpar_raw`. -/

/-- The perturbed parallel (frequency, angle) probability `pOparapar` of
`streamgapdf`, with masked writes modelled by `scatterMask`. -/
def pOparapar (smooth : ℚ → ℚ → ℚ → ℚ) (raw : ℚ → ℚ)
    (delta timpact tdisrupt : ℚ) (Opar : List ℚ) (apar : ℚ) : List ℚ :=
  let afterP : ℚ → Bool := fun O => decide (apar / O < timpact ∧ 0 ≤ apar / O)
  let vals1 := (Opar.filter afterP).map fun O => smooth O apar tdisrupt
  let vals2 := (Opar.filter fun O => !afterP O).map fun O =>
    smooth (O - impact_check_range delta raw (apar - O * timpact))
      (apar - O * timpact) (tdisrupt - timpact)
  scatterMask (Opar.map fun O => !afterP O) vals2
    (scatterMask (Opar.map afterP) vals1 (List.replicate Opar.length 0))

/-! ### Sampling with a kick: _sample_aAt (streamgapdf.py lines 1247-1272) -/

/-- Triple of rationals standing for a 3-vector of frequencies or angles. -/
structure Vec3 where
  x : ℚ
  y : ℚ
  z : ℚ
deriving DecidableEq

/-- State consumed by `_sample_aAt`: impact time, track extent, progenitor
frequency and angle, mean-offset direction and sign, and the six raw kick
splines (wrapped by `impact_check_range` when queried). -/
structure KickSetup where
  timpact : ℚ
  deltaAngleTrackImpact : ℚ
  progenitor_Omega : Vec3
  progenitor_angle : Vec3
  dsigomeanProgDirection : Vec3
  gap_sigMeanSign : ℚ
  rawdOr : ℚ → ℚ
  rawdOp : ℚ → ℚ
  rawdOz : ℚ → ℚ
  rawdar : ℚ → ℚ
  rawdap : ℚ → ℚ
  rawdaz : ℚ → ℚ

/-- Euclidean dot product of two triples. -/
def dot3 (a b : Vec3) : ℚ := a.x * b.x + a.y * b.y + a.z * b.z

/-- Zero sample, used as the (never reached) list-access default. -/
def zsample : Vec3 × Vec3 := (⟨0, 0, 0⟩, ⟨0, 0, 0⟩)

/-- Parallel angle offset of one sample at the impact time:
`dangle_at_impact = angle - progenitor_angle - (Om - progenitor_Omega)*timpact`
projected on the mean-offset direction and sign-corrected. -/
def dangle_par_at_impact (st : KickSetup) (Om angle : Vec3) : ℚ :=
  dot3 ⟨angle.x - st.progenitor_angle.x - (Om.x - st.progenitor_Omega.x) * st.timpact,
        angle.y - st.progenitor_angle.y - (Om.y - st.progenitor_Omega.y) * st.timpact,
        angle.z - st.progenitor_angle.z - (Om.z - st.progenitor_Omega.z) * st.timpact⟩
    st.dsigomeanProgDirection * st.gap_sigMeanSign

/-- The `_sample_aAt` kick application: every unperturbed sample `(Om, angle)`
drawn by the smooth-stream sampler receives the interpolated frequency kicks
(`Om[j,:] += dOj`) and angle kicks (`angle[j,:] += daj + dOj*timpact`), all six
kicks being the range-checked interpolations queried at the array of parallel
angle offsets at impact.  (The sampled times `dt` are returned unchanged by the
source and are omitted.  `zsample` is the out-of-range list default.) -/
def sample_aAt (st : KickSetup) (samples : List (Vec3 × Vec3)) : List (Vec3 × Vec3) :=
  let xs := samples.map fun s => dangle_par_at_impact st s.1 s.2
  let dOr := impact_check_range_arr st.deltaAngleTrackImpact st.rawdOr xs
  let dOp := impact_check_range_arr st.deltaAngleTrackImpact st.rawdOp xs
  let dOz := impact_check_range_arr st.deltaAngleTrackImpact st.rawdOz xs
  let dar := impact_check_range_arr st.deltaAngleTrackImpact st.rawdar xs
  let dap := impact_check_range_arr st.deltaAngleTrackImpact st.rawdap xs
  let daz := impact_check_range_arr st.deltaAngleTrackImpact st.rawdaz xs
  (List.range samples.length).map fun i =>
    let s := samples.getD i zsample
    (⟨s.1.x + dOr.getD i 0, s.1.y + dOp.getD i 0, s.1.z + dOz.getD i 0⟩,
     ⟨s.2.x + dar.getD i 0 + dOr.getD i 0 * st.timpact,
      s.2.y + dap.getD i 0 + dOp.getD i 0 * st.timpact,
      s.2.z + daz.getD i 0 + dOz.getD i 0 * st.timpact⟩)

/-! ### Leading/trailing consistency check
(streamgapdf.py lines 642-651 in _determine_deltav_kick and the identical
lines 996-1005 in _determine_impact_coordtransform) -/

/-- Sign-consistency check: `gap_leading = (impact_angle > 0)`; raise ValueError
when the gap side disagrees with the modelled arm, otherwise return the flag. -/
def determine_gap_leading (impact_angle : ℚ) (leading : Bool) : Except String Bool :=
  let gap_leading : Bool := decide (0 < impact_angle)
  if (gap_leading && !leading) || (!gap_leading && leading) then
    Except.error "Modeling leading (trailing) impact for trailing (leading) arm; this is not allowed because it is nonsensical in this framework"
  else
    Except.ok gap_leading

/-! ### tmin/tmax guard of impulse_deltav_plummerstream
(streamgapdf.py lines 1889-1893): the source tests `tmax is None or tmax is
None`, never `tmin`. -/

/-- The validation guard of `impulse_deltav_plummerstream`, exactly as written
in the source: `if tmax is None or tmax is None: raise ValueError(...)`. -/
def plummerstream_tminmax_check (tmin tmax : Option ℚ) : Except String Unit :=
  if tmax.isNone || tmax.isNone then
    Except.error "tmin= and tmax= need to be set"
  else
    Except.ok ()

/-! ### Breakpoint trimming in _determine_deltaOmegaTheta_kick
(streamgapdf.py lines 778-787)

`nzIndx = nonzero((roll(x,-1) - x > 0)*(arange(n) < n//2)
                  + (x - roll(x,1) > 0)*(arange(n) >= n//2))`
and the trimmed breakpoints are `x[nzIndx]` (boolean `*` is conjunction and
`+` is disjunction; `roll` wraps cyclically). -/

/-- Mask selecting the breakpoints kept by the trimming step. -/
def trim_mask (xs : List ℚ) (i : ℕ) : Bool :=
  let n := xs.length
  decide ((0 < xs.getD ((i + 1) % n) 0 - xs.getD i 0 ∧ i < n / 2) ∨
          (0 < xs.getD i 0 - xs.getD ((i + n - 1) % n) 0 ∧ n / 2 ≤ i))

/-- Indices kept by the trimming mask (`nzIndx`). -/
def nzIndx (xs : List ℚ) : List ℕ := (List.range xs.length).filter (trim_mask xs)

/-- The trimmed breakpoint sequence `_kick_interpdOpar_poly.x = ppoly.x[nzIndx]`. -/
def trimmed_poly_x (xs : List ℚ) : List ℚ := (nzIndx xs).map fun i => xs.getD i 0

/-! ### Real-valued part: special functions and kick calculators -/

noncomputable section

/-- The error function of scipy.special (an external library function), by its
mathematical definition `erf x = 2/sqrt(pi) * Integral_0^x exp(-t^2) dt`. -/
def erf (x : ℝ) : ℝ :=
  2 / Real.sqrt Real.pi * ∫ t in (0 : ℝ)..x, Real.exp (-t ^ 2)

/-! ### _densMoments_approx_higherorder_gaussxpolyInts (lines 380-402)

The source fills a (maxj, len(ul)) array bottom row first; all operations are
elementwise in the interval index, so one element of the bound arrays is
modelled.  Row `-1` and row `-2` are the hard-coded base cases; the loop sets
row `-(jj+3)` from row `-(jj+1)` by the integration-by-parts recursion. -/

/-- Row `-k` (counted from the end) of the Gaussian x polynomial integral
table; row 0 does not exist in the table and is set to 0 here. -/
def gaussxpolyIntRow (ll ul : ℝ) : ℕ → ℝ
  | 0 => 0
  | 1 => 1 / Real.sqrt Real.pi * (Real.exp (-ll ^ 2) - Real.exp (-ul ^ 2))
  | 2 => 1 / Real.sqrt Real.pi * (Real.exp (-ll ^ 2) * ll - Real.exp (-ul ^ 2) * ul)
      + 1 / 2 * (erf ul - erf ll)
  | (j + 3) => 1 / Real.sqrt Real.pi *
        (Real.exp (-ll ^ 2) * ll ^ (j + 2) - Real.exp (-ul ^ 2) * ul ^ (j + 2))
      + 1 / 2 * ((j : ℝ) + 2) * gaussxpolyIntRow ll ul (j + 1)

/-- The table `_densMoments_approx_higherorder_gaussxpolyInts(ll, ul, maxj)`
for one element of the bound arrays: the row at 0-based index `r` from the top
is the row `-(maxj - r)` from the end. -/
def densMoments_approx_higherorder_gaussxpolyInts (ll ul : ℝ) (maxj : ℕ) : List ℝ :=
  (List.range maxj).map fun r => gaussxpolyIntRow ll ul (maxj - r)

/-! ### The approximate density / mean-frequency engine
(_density_par_approx, _meanOmega_num_approx and their higher-order terms,
streamgapdf.py lines 283-402 and 511-623)

Instance state is a record; numpy arrays over breakpoints or intervals are
index functions (all operations in the source are elementwise or sums over
the leading `lowbindx+1` entries).  `poly_c r i` is row `r` of
`_kick_interpdOpar_poly.c` (top row 0, so `c[-1] = poly_c spline_order` and
`c[-2] = poly_c (spline_order - 1)`), `poly_x i` the breakpoints (`npoly` of
them), `sigO2 = _sortedSigOEig[2]` and `meandO = _meandO`. -/

structure GapDF where
  timpact : ℝ
  meandO : ℝ
  sigO2 : ℝ
  npoly : ℕ
  poly_x : ℕ → ℝ
  spline_order : ℕ
  poly_c : ℕ → ℕ → ℝ

/-- Constant-coefficient row `_kick_interpdOpar_poly.c[-1]`. -/
def cm1 (s : GapDF) : ℕ → ℝ := s.poly_c s.spline_order

/-- Linear-coefficient row `_kick_interpdOpar_poly.c[-2]`. -/
def cm2 (s : GapDF) : ℕ → ℝ := s.poly_c (s.spline_order - 1)

/-- The scale `sqrt(2 * sigO2)` of every erf argument. -/
def sq2sig (s : GapDF) : ℝ := Real.sqrt (2 * s.sigO2)

/-- First index of the minimum of `f` over `0 <= i < n` (numpy argmin). -/
def argminIdx (f : ℕ → EReal) (n : ℕ) : ℕ :=
  (List.range n).foldl (fun best i => if f i < f best then i else best) 0

/-- `minOpar(dangle, tdisrupt, _return_raw=True)` (lines 404-446): breakpoint
frequencies over `poly.x[:-1]`, the per-interval closed-form lower limit,
masking of negative entries by float inf (modelled as EReal top; `toReal`
sends the top that is only returned in the all-masked case to 0), and numpy
argmin. -/
def minOpar_raw (s : GapDF) (dangle tdisrupt : ℝ) : ℕ × ℝ :=
  let Oparb : ℕ → ℝ := fun i => (dangle - s.poly_x i) / s.timpact
  let lowx : ℕ → ℝ := fun i =>
    ((Oparb i - cm1 s i) * (tdisrupt - s.timpact) + Oparb i * s.timpact - dangle) /
      ((tdisrupt - s.timpact) * (1 + cm2 s i * s.timpact) + s.timpact)
  let lowxM : ℕ → EReal := fun i => if lowx i < 0 then ⊤ else (lowx i : EReal)
  let lowbindx := argminIdx lowxM (s.npoly - 1)
  (lowbindx, (lowxM lowbindx).toReal)

/-- The modified breakpoint-frequency array shared by `_density_par_approx`
and `_meanOmega_num_approx`: `Oparb = (dangle - poly.x)/timpact` followed by
`Oparb[lowbindx+1] = Oparb[lowbindx] - lowx` (the index-array lookup
`arange(len(Oparb)-1)[lowbindx]` is the identity on `lowbindx`). -/
def Oparb_mod (s : GapDF) (dangle tdisrupt : ℝ) : ℕ → ℝ :=
  let Oparb : ℕ → ℝ := fun i => (dangle - s.poly_x i) / s.timpact
  Function.update Oparb ((minOpar_raw s dangle tdisrupt).1 + 1)
    (Oparb (minOpar_raw s dangle tdisrupt).1 - (minOpar_raw s dangle tdisrupt).2)

/-- Per-interval erf-difference terms of `_density_par_approx`
(`_return_array=True`, lines 294-319). -/
def density_par_approx_arr (s : GapDF) (dangle tdisrupt : ℝ) : ℕ → ℝ := fun i =>
  let Ob := Oparb_mod s dangle tdisrupt
  1 / 2 / (1 + cm2 s i * s.timpact) *
    (erf ((Ob i - cm1 s i - s.meandO) / sq2sig s)
     - erf ((Ob (i + 1) - cm1 s i - s.meandO
             - cm2 s i * s.timpact * (Ob i - Ob (i + 1))) / sq2sig s))

/-- Lower bounds `ll` of the higher-order Gaussian integrals (lines 341-348). -/
def ho_ll (s : GapDF) (Ob : ℕ → ℝ) (i : ℕ) : ℝ :=
  (Ob (i + 1) - cm1 s i - s.meandO
    - cm2 s i * s.timpact * (Ob i - Ob (i + 1))) / sq2sig s

/-- Upper bounds `ul` (lines 349-351). -/
def ho_ul (s : GapDF) (Ob : ℕ → ℝ) (i : ℕ) : ℝ :=
  (Ob i - cm1 s i - s.meandO) / sq2sig s

/-- Row factor `-0.5 * (-sqrt 2)^(p+1) * sigO2^((p-1)/2)` multiplied into the
table row of power `p` (lines 357-362; the last factor is a real power). -/
def ho_factor (s : GapDF) (p : ℕ) : ℝ :=
  -(1 / 2) * (-Real.sqrt 2) ^ (p + 1) * s.sigO2 ^ (((p : ℝ) - 1) / 2)

/-- Coefficient sum multiplied into row `-(jj+1)` of the density higher-order
term (the loop body, lines 363-374); scipy binom on these naturals is
`Nat.choose` (zero once `jj` exceeds the power), and the possibly negative
final exponent is an integer power. -/
def ho_coeffsum (s : GapDF) (Ob : ℕ → ℝ) (jj i : ℕ) : ℝ :=
  ∑ r ∈ Finset.range (s.spline_order - 1),
    s.poly_c r i * s.timpact ^ (s.spline_order - r) /
        (1 + cm2 s i * s.timpact) ^ (s.spline_order - r + 1) *
      (Nat.choose (s.spline_order - r) jj : ℝ) *
      (Ob i - cm1 s i - s.meandO) ^ ((s.spline_order : ℤ) - r - jj)

/-- `_density_par_approx_higherorder(..., _return_array=True)`, with the
Gaussian-integral table a parameter (the caller lets it default or passes a
slice); entry at interval `i`.  The early `spline_order == 1` return value 0.0
broadcasts to a zero array. -/
def density_par_approx_higherorder_arr (s : GapDF) (Ob : ℕ → ℝ)
    (gxp : ℕ → ℕ → ℝ) : ℕ → ℝ :=
  if s.spline_order = 1 then fun _ => 0
  else fun i => ∑ r ∈ Finset.range (s.spline_order + 1),
    gxp r i * ho_factor s (s.spline_order - r) * ho_coeffsum s Ob (s.spline_order - r) i

/-- Default table (`gaussxpolyInt is None`): row `r` of
`_densMoments_approx_higherorder_gaussxpolyInts(ll, ul, spline_order + 1)`. -/
def ho_gxp_default (s : GapDF) (Ob : ℕ → ℝ) : ℕ → ℕ → ℝ := fun r i =>
  gaussxpolyIntRow (ho_ll s Ob i) (ho_ul s Ob i) (s.spline_order + 1 - r)

/-- `_density_par_approx_higherorder(Oparb, lowbindx)` (lines 333-378,
scalar return): exactly 0.0 for a linear spline, otherwise the sum of the
scaled table over all rows and the first `lowbindx+1` intervals. -/
def density_par_approx_higherorder (s : GapDF) (Ob : ℕ → ℝ) (lowbindx : ℕ) : ℝ :=
  if s.spline_order = 1 then 0
  else ∑ r ∈ Finset.range (s.spline_order + 1), ∑ i ∈ Finset.range (lowbindx + 1),
    ho_gxp_default s Ob r i * ho_factor s (s.spline_order - r)
      * ho_coeffsum s Ob (s.spline_order - r) i

/-- `_density_par_approx(dangle, tdisrupt, higherorder)` (lines 283-331):
erf-difference sum up to `lowbindx`, optional higher-order contribution, and
the integration-to-infinity tail. -/
def density_par_approx (s : GapDF) (dangle tdisrupt : ℝ) (higherorder : Bool) : ℝ :=
  let Ob := Oparb_mod s dangle tdisrupt
  let lowbindx := (minOpar_raw s dangle tdisrupt).1
  let out := ∑ i ∈ Finset.range (lowbindx + 1), density_par_approx_arr s dangle tdisrupt i
  let out := if higherorder then out + density_par_approx_higherorder s Ob lowbindx else out
  out + 1 / 2 * (1 + erf ((s.meandO - Ob 0) / sq2sig s))

/-- Coefficient sum of the mean-frequency higher-order term (lines 609-620). -/
def mo_coeffsum (s : GapDF) (Ob : ℕ → ℝ) (jj i : ℕ) : ℝ :=
  ∑ r ∈ Finset.range (s.spline_order - 1),
    s.poly_c r i * s.timpact ^ (s.spline_order - r) /
        (1 + cm2 s i * s.timpact) ^ (s.spline_order - r + 2) *
      (Nat.choose (s.spline_order - r + 1) jj : ℝ) *
      (Ob i - cm1 s i - s.meandO) ^ ((s.spline_order : ℤ) - r - jj + 1)

/-- `_meanOmega_num_approx_higherorder(Oparb, lowbindx)` (lines 576-623):
exactly 0.0 for a linear spline; otherwise the `spline_order + 2`-row table,
the `Oparb * density-higher-order` first term fed the row-1 slice of that
table, and the scaled double sum. -/
def meanOmega_num_approx_higherorder (s : GapDF) (Ob : ℕ → ℝ) (lowbindx : ℕ) : ℝ :=
  if s.spline_order = 1 then 0
  else
    let gxp : ℕ → ℕ → ℝ := fun r i =>
      gaussxpolyIntRow (ho_ll s Ob i) (ho_ul s Ob i) (s.spline_order + 2 - r)
    let firstTerm : ℕ → ℝ := fun i =>
      Ob i * density_par_approx_higherorder_arr s Ob (fun r i => gxp (r + 1) i) i
    ∑ i ∈ Finset.range (lowbindx + 1),
      ((∑ r ∈ Finset.range (s.spline_order + 2),
          gxp r i * ho_factor s (s.spline_order + 1 - r)
            * mo_coeffsum s Ob (s.spline_order + 1 - r) i)
        + firstTerm i)

/-- `_meanOmega_num_approx(dangle, tdisrupt, higherorder)` (lines 511-574). -/
def meanOmega_num_approx (s : GapDF) (dangle tdisrupt : ℝ) (higherorder : Bool) : ℝ :=
  let Ob := Oparb_mod s dangle tdisrupt
  let lowbindx := (minOpar_raw s dangle tdisrupt).1
  let out := ∑ i ∈ Finset.range (lowbindx + 1),
    ((Ob i + (s.meandO + cm1 s i - Ob i) / (1 + cm2 s i * s.timpact)) *
        density_par_approx_arr s dangle tdisrupt i
      + Real.sqrt (s.sigO2 / (2 * Real.pi)) / (1 + cm2 s i * s.timpact) ^ 2 *
        (Real.exp (-(1 / 2) *
            (Ob i - cm1 s i - (1 + cm2 s i * s.timpact) * (Ob i - Ob (i + 1))
              - s.meandO) ^ 2 / s.sigO2)
         - Real.exp (-(1 / 2) * (Ob i - cm1 s i - s.meandO) ^ 2 / s.sigO2)))
  let out := if higherorder then out + meanOmega_num_approx_higherorder s Ob lowbindx
    else out
  out + 1 / 2 * (Real.sqrt (2 / Real.pi) * Real.sqrt s.sigO2 *
        Real.exp (-(1 / 2) * (s.meandO - Ob 0) ^ 2 / s.sigO2)
      + s.meandO * (1 + erf ((s.meandO - Ob 0) / sq2sig s)))

/-! ### HernquistX (streamgapdf.py lines 1391-1402) -/

/-- Value branches of the Hernquist X function (s < 1, s = 1, s > 1); the
argument-sign check lives in `HernquistX`.  (The value at s < 0 is never
reached there.) -/
def hernquistXval (s : ℝ) : ℝ :=
  if s < 1 then Real.log ((1 + Real.sqrt (1 - s * s)) / s) / Real.sqrt (1 - s * s)
  else if s = 1 then 1
  else Real.arccos (1 / s) / Real.sqrt (s * s - 1)

/-- The X function from equations (33) and (34) of Hernquist (1990):
raises ValueError for a negative argument, otherwise the piecewise closed
form of `hernquistXval`. -/
def HernquistX (s : ℝ) : Except String ℝ :=
  if s < 0 then Except.error "s must be positive in Hernquist X function"
  else Except.ok (hernquistXval s)

/-! ### impulse_deltav_plummer (lines 1275-1341) and
impulse_deltav_hernquist (lines 1405-1491), per-particle rotated-frame core

The source first builds `rot = _rotation_vy(v)` (a rotation taking the
particle velocity onto the y axis, from galpy.util, outside this repository)
and `tilew = rot  w`; everything from there on is per particle.  The
definitions below start from `tilew` and `vmag = |v|` and include the final
factor `2*GM`; the source result is the fixed inverse rotation applied to
this vector, which preserves finiteness and limits componentwise. -/

/-- Real 3-vector. -/
structure RVec3 where
  x : ℝ
  y : ℝ
  z : ℝ

/-- General branch of the Plummer impulse kick (lines 1313-1321), before the
perpendicular-impact override. -/
def impulse_deltav_plummer_rot_general (tilew : RVec3) (vmag y b GM rs : ℝ) : RVec3 :=
  let wperp := Real.sqrt (tilew.x ^ 2 + tilew.z ^ 2)
  let wpar := vmag - tilew.y
  let wmag2 := wpar ^ 2 + wperp ^ 2
  let wmag := Real.sqrt wmag2
  let denom := wmag * ((b ^ 2 + rs ^ 2) * wmag2 + wperp ^ 2 * y ^ 2)
  ⟨2 * GM * ((b * wmag2 * tilew.z / wperp - y * wpar * tilew.x) / denom),
   2 * GM * (-(wperp ^ 2) * y / denom),
   2 * GM * (-(b * wmag2 * tilew.x / wperp + y * wpar * tilew.z) / denom)⟩

/-- The Plummer impulse kick core with the perpendicular-impact branch
(lines 1322-1333): when `|wperp| < 1e-10` the x and z components are replaced
by the expressions that do not divide by `wperp`. -/
def impulse_deltav_plummer_rot (tilew : RVec3) (vmag y b GM rs : ℝ) : RVec3 :=
  let wperp := Real.sqrt (tilew.x ^ 2 + tilew.z ^ 2)
  let wpar := vmag - tilew.y
  let wmag2 := wpar ^ 2 + wperp ^ 2
  let wmag := Real.sqrt wmag2
  let denom := wmag * ((b ^ 2 + rs ^ 2) * wmag2 + wperp ^ 2 * y ^ 2)
  let out0 := if |wperp| < 1e-10 then (b * wmag2 - y * wpar * tilew.x) / denom
    else (b * wmag2 * tilew.z / wperp - y * wpar * tilew.x) / denom
  let out1 := -(wperp ^ 2) * y / denom
  let out2 := if |wperp| < 1e-10 then -((b * wmag2 + y * wpar * tilew.z) / denom)
    else -(b * wmag2 * tilew.x / wperp + y * wpar * tilew.z) / denom
  ⟨2 * GM * out0, 2 * GM * out1, 2 * GM * out2⟩

/-- The Hernquist impulse kick core with the perpendicular-impact branch
(lines 1441-1483); `denom` holds the reciprocal exactly as in the source. -/
def impulse_deltav_hernquist_rot (tilew : RVec3) (vmag y b GM rs : ℝ) : RVec3 :=
  let wperp := Real.sqrt (tilew.x ^ 2 + tilew.z ^ 2)
  let wpar := vmag - tilew.y
  let wmag2 := wpar ^ 2 + wperp ^ 2
  let wmag := Real.sqrt wmag2
  let B := Real.sqrt (b ^ 2 + wperp ^ 2 * y ^ 2 / wmag2)
  let denom := (wmag * (B ^ 2 - rs ^ 2))⁻¹
  let s := Real.sqrt (2 * B / (rs + B))
  let Xfac := 1 - 2 * rs / (rs + B) * hernquistXval s
  let out0 := if |wperp| < 1e-10 then (b - y * wpar * tilew.x / wmag2) * denom * Xfac
    else (b * tilew.z / wperp - y * wpar * tilew.x / wmag2) * denom * Xfac
  let out1 := -(wperp ^ 2) * y * denom * Xfac / wmag2
  let out2 := if |wperp| < 1e-10 then -((b + y * wpar * tilew.z / wmag2) * denom * Xfac)
    else -(b * tilew.x / wperp + y * wpar * tilew.z / wmag2) * denom * Xfac
  ⟨2 * GM * out0, 2 * GM * out1, 2 * GM * out2⟩

end

end StreamGap

namespace StreamGap

theorem scatterMask_length {α : Type} :
    ∀ (mask : List Bool) (vals base : List α),
      (scatterMask mask vals base).length = base.length := by
  intro mask
  induction mask with
  | nil => intro vals base; rfl
  | cons m ms ih =>
    intro vals base
    cases base with
    | nil => cases m <;> cases vals <;> rfl
    | cons b bs =>
      cases m with
      | true =>
        cases vals with
        | nil => simpa [scatterMask] using ih [] bs
        | cons v vs => simpa [scatterMask] using ih vs bs
      | false => simpa [scatterMask] using ih vals bs

/-- Elementwise characterisation of masked scatter over a filtered map: this
is the semantics of `out[mask] = f(x[mask])` starting from `base`. -/
theorem scatterMask_filter_getD {α β : Type} (p : α → Bool) (f : α → β) (d : α) (e : β) :
    ∀ (xs : List α) (base : List β), base.length = xs.length →
      ∀ i, i < xs.length →
      (scatterMask (xs.map p) ((xs.filter p).map f) base).getD i e
        = if p (xs.getD i d) then f (xs.getD i d) else base.getD i e := by
  intro xs
  induction xs with
  | nil => intro base _ i hi; exact absurd hi (by simp)
  | cons x xs ih =>
    intro base hlen i hi
    cases base with
    | nil => simp at hlen
    | cons b bs =>
      have hbs : bs.length = xs.length := by simpa using hlen
      by_cases hp : p x
      · cases i with
        | zero => simp [scatterMask, hp, List.filter_cons]
        | succ j =>
          have hj : j < xs.length := by simpa using hi
          simp only [List.map_cons, List.filter_cons, hp, ite_true, scatterMask,
            List.getD_cons_succ]
          exact ih bs hbs j hj
      · cases i with
        | zero => simp [scatterMask, hp, List.filter_cons]
        | succ j =>
          have hj : j < xs.length := by simpa using hi
          simp only [List.map_cons, List.filter_cons, hp, Bool.false_eq_true,
            ite_false, scatterMask, List.getD_cons_succ]
          exact ih bs hbs j hj

/-- Elementwise value of the array branch of `impact_check_range`; it agrees
with the scalar branch at every position. -/
theorem impact_check_range_arr_getD (delta : ℚ) (f : ℚ → ℚ) (xs : List ℚ)
    (i : ℕ) (hi : i < xs.length) :
    (impact_check_range_arr delta f xs).getD i 0
      = impact_check_range delta f (xs.getD i 0) := by
  unfold impact_check_range_arr
  rw [scatterMask_filter_getD (fun x => decide (x < delta ∧ 0 < x)) f 0 0 xs
      (List.replicate xs.length 0) (by simp) i hi]
  unfold impact_check_range
  by_cases h : xs.getD i 0 < delta ∧ 0 < xs.getD i 0
  · rw [if_pos (by simpa using h), if_neg (by push_neg; exact ⟨h.1, h.2⟩)]
  · have hc : delta ≤ xs.getD i 0 ∨ xs.getD i 0 ≤ 0 := by
      rcases not_and_or.1 h with h1 | h1
      · exact Or.inl (not_lt.1 h1)
      · exact Or.inr (not_lt.1 h1)
    rw [if_neg (by simpa using h), if_pos hc]
    simp

/-- The wrapped kick vanishes at and outside the boundary of the valid range. -/
theorem impact_check_range_zero (delta : ℚ) (f : ℚ → ℚ) (da : ℚ)
    (h : da ≤ 0 ∨ delta ≤ da) : impact_check_range delta f da = 0 := by
  unfold impact_check_range
  exact if_pos h.symm

/-- The wrapped kick agrees with the raw evaluation strictly inside the range. -/
theorem impact_check_range_inside (delta : ℚ) (f : ℚ → ℚ) (da : ℚ)
    (h0 : 0 < da) (h1 : da < delta) : impact_check_range delta f da = f da := by
  unfold impact_check_range
  rw [if_neg]
  push_neg
  exact ⟨h1, h0⟩

/-- C1: the `impact_check_range` wrapper saturates out-of-range inputs to zero.
For array input, every entry that is `≤ 0` or `≥ _deltaAngleTrackImpact` maps
to exactly 0 in the output and every entry strictly inside
`(0, _deltaAngleTrackImpact)` maps to the unwrapped raw evaluation at that
entry; for scalar input, a value `≥ _deltaAngleTrackImpact` or `≤ 0` returns
exactly 0 and any other value returns the unwrapped evaluation. -/
theorem impact_check_range_spec (delta : ℚ) (f : ℚ → ℚ) (xs : List ℚ)
    (i : ℕ) (hi : i < xs.length) (da : ℚ) :
    ((xs.getD i 0 ≤ 0 ∨ delta ≤ xs.getD i 0 →
        (impact_check_range_arr delta f xs).getD i 0 = 0) ∧
      (0 < xs.getD i 0 → xs.getD i 0 < delta →
        (impact_check_range_arr delta f xs).getD i 0 = f (xs.getD i 0))) ∧
    (delta ≤ da ∨ da ≤ 0 → impact_check_range delta f da = 0) ∧
    (0 < da → da < delta → impact_check_range delta f da = f da) := by
  refine ⟨⟨fun h => ?_, fun h0 h1 => ?_⟩, fun h => ?_, fun h0 h1 => ?_⟩
  · rw [impact_check_range_arr_getD delta f xs i hi]
    exact impact_check_range_zero delta f _ h
  · rw [impact_check_range_arr_getD delta f xs i hi]
    exact impact_check_range_inside delta f _ h0 h1
  · exact impact_check_range_zero delta f da h.symm
  · exact impact_check_range_inside delta f da h0 h1

/-- Sanity witness for `impact_check_range_spec` at a concrete input. -/
theorem impact_check_range_spec_witness :
    (1 : ℕ) < 3 ∧
      (impact_check_range_arr 1 (fun q => q + 2) [-1, 1/2, 3]).getD 1 0 = 1/2 + 2 ∧
      (impact_check_range_arr 1 (fun q => q + 2) [-1, 1/2, 3]).getD 0 0 = 0 ∧
      impact_check_range 1 (fun q => q + 2) 3 = 0 := by
  refine ⟨by decide, ?_, ?_, ?_⟩
  · exact (impact_check_range_spec 1 (fun q => q + 2) [-1, 1/2, 3] 1 (by decide) 3).1.2
      (by norm_num) (by norm_num)
  · exact ((impact_check_range_spec 1 (fun q => q + 2) [-1, 1/2, 3] 0 (by decide) 3).1.1
      (Or.inl (by norm_num)))
  · exact (impact_check_range_spec 1 (fun q => q + 2) [-1, 1/2, 3] 1 (by decide) 3).2.1
      (Or.inl (by norm_num))

/-- C2: `pOparapar` is a two-branch piecewise function selected per element.
Writing `ts = apar/Opar[i]`, an element with `0 ≤ ts < timpact` evaluates the
unperturbed smooth-stream density directly at `(Opar[i], apar)` (with the
default disruption time); any other element evaluates the smooth density at
the de-kicked pair `(Opar[i] - dOpar(apar - Opar[i]*timpact),
apar - Opar[i]*timpact)` with disruption time `tdisrupt - timpact`, where
`dOpar` is the range-checked interpolated parallel-frequency kick.  (The
hypothesis `Opar[i] ≠ 0` excludes the index where float division of the
source would produce inf/nan.) -/
theorem pOparapar_spec (smooth : ℚ → ℚ → ℚ → ℚ) (raw : ℚ → ℚ)
    (delta timpact tdisrupt : ℚ) (Opar : List ℚ) (apar : ℚ)
    (i : ℕ) (hi : i < Opar.length) (hO : Opar.getD i 0 ≠ 0) :
    (0 ≤ apar / Opar.getD i 0 ∧ apar / Opar.getD i 0 < timpact →
      (pOparapar smooth raw delta timpact tdisrupt Opar apar).getD i 0
        = smooth (Opar.getD i 0) apar tdisrupt) ∧
    (¬(0 ≤ apar / Opar.getD i 0 ∧ apar / Opar.getD i 0 < timpact) →
      (pOparapar smooth raw delta timpact tdisrupt Opar apar).getD i 0
        = smooth
            (Opar.getD i 0 -
              impact_check_range delta raw (apar - Opar.getD i 0 * timpact))
            (apar - Opar.getD i 0 * timpact) (tdisrupt - timpact)) := by
  unfold pOparapar
  have hlen1 :
      (scatterMask (Opar.map fun O => decide (apar / O < timpact ∧ 0 ≤ apar / O))
        ((Opar.filter fun O => decide (apar / O < timpact ∧ 0 ≤ apar / O)).map
          fun O => smooth O apar tdisrupt)
        (List.replicate Opar.length 0)).length = Opar.length := by
    rw [scatterMask_length]
    simp
  rw [scatterMask_filter_getD
      (fun O => !decide (apar / O < timpact ∧ 0 ≤ apar / O)) _ 0 0 Opar _ hlen1 i hi]
  rw [scatterMask_filter_getD
      (fun O => decide (apar / O < timpact ∧ 0 ≤ apar / O)) _ 0 0 Opar
      (List.replicate Opar.length 0) (by simp) i hi]
  by_cases hp : apar / Opar.getD i 0 < timpact ∧ 0 ≤ apar / Opar.getD i 0
  · have hd : decide (apar / Opar.getD i 0 < timpact ∧ 0 ≤ apar / Opar.getD i 0) = true :=
      decide_eq_true hp
    rw [hd]
    exact ⟨fun _ => by simp, fun hcon => absurd ⟨hp.2, hp.1⟩ hcon⟩
  · have hd : decide (apar / Opar.getD i 0 < timpact ∧ 0 ≤ apar / Opar.getD i 0) = false :=
      decide_eq_false hp
    rw [hd]
    exact ⟨fun hcon => absurd ⟨hcon.2, hcon.1⟩ hp, fun _ => by simp⟩

/-- Sanity witness for `pOparapar_spec`: both branches fire at a concrete
input (smooth density `O + a + t`, raw kick `q ↦ 10*q`, delta 1, timpact 1,
tdisrupt 5, angles 1/2, frequencies [1, -1]). -/
theorem pOparapar_spec_witness :
    (0 : ℕ) < 2 ∧ ([1, -1] : List ℚ).getD 0 0 ≠ 0 ∧
      (pOparapar (fun O a t => O + a + t) (fun q => 10 * q) 1 1 5 [1, -1] (1/2)).getD 0 0
        = 1 + 1/2 + 5 ∧
      (pOparapar (fun O a t => O + a + t) (fun q => 10 * q) 1 1 5 [1, -1] (1/2)).getD 1 0
        = -1 + 3/2 + 4 := by
  refine ⟨by decide, by norm_num, ?_, ?_⟩
  · have h := (pOparapar_spec (fun O a t => O + a + t) (fun q => 10 * q)
      1 1 5 [1, -1] (1/2) 0 (by decide) (by norm_num)).1 (by norm_num)
    rw [h]
    norm_num
  · have h := (pOparapar_spec (fun O a t => O + a + t) (fun q => 10 * q)
      1 1 5 [1, -1] (1/2) 1 (by decide) (by norm_num)).2 (by norm_num)
    rw [h]
    norm_num [impact_check_range]

/-- C6: constructing the kick setup with an impact-angle sign inconsistent
with the declared arm raises a ValueError; every consistent combination
passes the check (and records whether the gap is on the leading arm). -/
theorem gap_leading_check_spec (impact_angle : ℚ) (leading : Bool) :
    ((∃ msg, determine_gap_leading impact_angle leading = Except.error msg) ↔
      ((0 < impact_angle ∧ leading = false) ∨ (impact_angle ≤ 0 ∧ leading = true))) ∧
    (((0 < impact_angle ∧ leading = true) ∨ (impact_angle ≤ 0 ∧ leading = false)) →
      determine_gap_leading impact_angle leading
        = Except.ok (decide (0 < impact_angle))) := by
  rcases lt_or_le 0 impact_angle with h | h
  · have hd : decide (0 < impact_angle) = true := decide_eq_true h
    cases leading <;> simp [determine_gap_leading, hd, h, not_le.2 h]
  · have hd : decide (0 < impact_angle) = false := decide_eq_false (not_lt.2 h)
    cases leading <;> simp [determine_gap_leading, hd, h, not_lt.2 h]

/-- Sanity witness for `gap_leading_check_spec`: a trailing-arm model with a
positive (leading-side) impact angle errors; the consistent combination passes. -/
theorem gap_leading_check_spec_witness :
    (∃ msg, determine_gap_leading 1 false = Except.error msg) ∧
      determine_gap_leading 1 true = Except.ok true := by
  constructor
  · exact (gap_leading_check_spec 1 false).1.2 (Or.inl ⟨by norm_num, rfl⟩)
  · have h := (gap_leading_check_spec 1 true).2 (Or.inl ⟨by norm_num, rfl⟩)
    simpa using h

/-- C10: the explicit ValueError of `impulse_deltav_plummerstream` fires
exactly when `tmax` is None: the guard tests `tmax` twice and never `tmin`,
so a call with `tmax` provided and `tmin = None` passes the check. -/
theorem plummerstream_tminmax_spec (tmin tmax : Option ℚ) :
    ((∃ msg, plummerstream_tminmax_check tmin tmax = Except.error msg) ↔ tmax = none) ∧
    (∀ t : ℚ, plummerstream_tminmax_check none (some t) = Except.ok ()) := by
  constructor
  · cases tmax <;> simp [plummerstream_tminmax_check]
  · intro t
    simp [plummerstream_tminmax_check]

theorem getD_map_of_lt {α β : Type} (f : α → β) (l : List α) (i : ℕ)
    (h : i < l.length) (d : α) (e : β) : (l.map f).getD i e = f (l.getD i d) := by
  rw [List.getD_eq_getElem _ _ (by simpa using h), List.getD_eq_getElem _ _ h]
  simp

/-- C5: each sample drawn by `_sample_aAt` has its frequencies shifted by the
(range-checked) interpolated frequency kick at its parallel angle offset at
impact, and its angles shifted by the interpolated angle kick plus the
frequency kick times `timpact`; any sample whose offset at impact is outside
`(0, _deltaAngleTrackImpact)` (in particular one not yet released at impact)
receives exactly zero kick and is returned unchanged. -/
theorem sample_aAt_spec (st : KickSetup) (samples : List (Vec3 × Vec3))
    (i : ℕ) (hi : i < samples.length)
    (s : Vec3 × Vec3) (hs : samples.getD i zsample = s)
    (a : ℚ) (ha : dangle_par_at_impact st s.1 s.2 = a) :
    ((sample_aAt st samples).getD i zsample =
      (⟨s.1.x + impact_check_range st.deltaAngleTrackImpact st.rawdOr a,
        s.1.y + impact_check_range st.deltaAngleTrackImpact st.rawdOp a,
        s.1.z + impact_check_range st.deltaAngleTrackImpact st.rawdOz a⟩,
       ⟨s.2.x + impact_check_range st.deltaAngleTrackImpact st.rawdar a
          + impact_check_range st.deltaAngleTrackImpact st.rawdOr a * st.timpact,
        s.2.y + impact_check_range st.deltaAngleTrackImpact st.rawdap a
          + impact_check_range st.deltaAngleTrackImpact st.rawdOp a * st.timpact,
        s.2.z + impact_check_range st.deltaAngleTrackImpact st.rawdaz a
          + impact_check_range st.deltaAngleTrackImpact st.rawdOz a * st.timpact⟩)) ∧
    (a ≤ 0 ∨ st.deltaAngleTrackImpact ≤ a →
      (sample_aAt st samples).getD i zsample = s) := by
  have hxs : (samples.map fun s => dangle_par_at_impact st s.1 s.2).length
      = samples.length := by simp
  have hxsget : (samples.map fun s => dangle_par_at_impact st s.1 s.2).getD i 0 = a := by
    rw [getD_map_of_lt _ samples i hi zsample 0, hs, ha]
  have hmain : (sample_aAt st samples).getD i zsample =
      (⟨s.1.x + impact_check_range st.deltaAngleTrackImpact st.rawdOr a,
        s.1.y + impact_check_range st.deltaAngleTrackImpact st.rawdOp a,
        s.1.z + impact_check_range st.deltaAngleTrackImpact st.rawdOz a⟩,
       ⟨s.2.x + impact_check_range st.deltaAngleTrackImpact st.rawdar a
          + impact_check_range st.deltaAngleTrackImpact st.rawdOr a * st.timpact,
        s.2.y + impact_check_range st.deltaAngleTrackImpact st.rawdap a
          + impact_check_range st.deltaAngleTrackImpact st.rawdOp a * st.timpact,
        s.2.z + impact_check_range st.deltaAngleTrackImpact st.rawdaz a
          + impact_check_range st.deltaAngleTrackImpact st.rawdOz a * st.timpact⟩) := by
    unfold sample_aAt
    rw [List.getD_eq_getElem _ _ (by simpa using hi)]
    simp only [List.getElem_map, List.getElem_range]
    rw [impact_check_range_arr_getD _ _ _ i (by rw [hxs]; exact hi),
        impact_check_range_arr_getD _ _ _ i (by rw [hxs]; exact hi),
        impact_check_range_arr_getD _ _ _ i (by rw [hxs]; exact hi),
        impact_check_range_arr_getD _ _ _ i (by rw [hxs]; exact hi),
        impact_check_range_arr_getD _ _ _ i (by rw [hxs]; exact hi),
        impact_check_range_arr_getD _ _ _ i (by rw [hxs]; exact hi)]
    rw [hxsget, hs]
  refine ⟨hmain, fun hout => ?_⟩
  rw [hmain]
  rw [impact_check_range_zero _ _ _ hout, impact_check_range_zero _ _ _ hout,
      impact_check_range_zero _ _ _ hout, impact_check_range_zero _ _ _ hout,
      impact_check_range_zero _ _ _ hout, impact_check_range_zero _ _ _ hout]
  obtain ⟨⟨s1x, s1y, s1z⟩, ⟨s2x, s2y, s2z⟩⟩ := s
  simp

/-- Sanity witness for `sample_aAt_spec`: a released sample gets the
interpolated kick, an unreleased one is returned unchanged. -/
theorem sample_aAt_spec_witness :
    ((1 : ℕ) < 2) ∧
    (sample_aAt
        ⟨1, 1, ⟨0, 0, 0⟩, ⟨0, 0, 0⟩, ⟨1, 0, 0⟩, 1,
          fun q => q, fun q => 2 * q, fun q => 3 * q,
          fun q => 4 * q, fun q => 5 * q, fun q => 6 * q⟩
        [(⟨0, 0, 0⟩, ⟨1/2, 0, 0⟩), (⟨0, 0, 0⟩, ⟨2, 0, 0⟩)]).getD 0 zsample
      = (⟨0 + 1/2, 0 + 2 * (1/2), 0 + 3 * (1/2)⟩,
         ⟨1/2 + 4 * (1/2) + 1/2 * 1, 0 + 5 * (1/2) + 2 * (1/2) * 1,
          0 + 6 * (1/2) + 3 * (1/2) * 1⟩) ∧
    (sample_aAt
        ⟨1, 1, ⟨0, 0, 0⟩, ⟨0, 0, 0⟩, ⟨1, 0, 0⟩, 1,
          fun q => q, fun q => 2 * q, fun q => 3 * q,
          fun q => 4 * q, fun q => 5 * q, fun q => 6 * q⟩
        [(⟨0, 0, 0⟩, ⟨1/2, 0, 0⟩), (⟨0, 0, 0⟩, ⟨2, 0, 0⟩)]).getD 1 zsample
      = (⟨0, 0, 0⟩, ⟨2, 0, 0⟩) := by
  refine ⟨by decide, ?_, ?_⟩
  · have h := (sample_aAt_spec
      ⟨1, 1, ⟨0, 0, 0⟩, ⟨0, 0, 0⟩, ⟨1, 0, 0⟩, 1,
        fun q => q, fun q => 2 * q, fun q => 3 * q,
        fun q => 4 * q, fun q => 5 * q, fun q => 6 * q⟩
      [(⟨0, 0, 0⟩, ⟨1/2, 0, 0⟩), (⟨0, 0, 0⟩, ⟨2, 0, 0⟩)] 0 (by decide)
      (⟨0, 0, 0⟩, ⟨1/2, 0, 0⟩) rfl (1/2)
      (by norm_num [dangle_par_at_impact, dot3])).1
    rw [h]
    norm_num [impact_check_range]
  · exact (sample_aAt_spec
      ⟨1, 1, ⟨0, 0, 0⟩, ⟨0, 0, 0⟩, ⟨1, 0, 0⟩, 1,
        fun q => q, fun q => 2 * q, fun q => 3 * q,
        fun q => 4 * q, fun q => 5 * q, fun q => 6 * q⟩
      [(⟨0, 0, 0⟩, ⟨1/2, 0, 0⟩), (⟨0, 0, 0⟩, ⟨2, 0, 0⟩)] 1 (by decide)
      (⟨0, 0, 0⟩, ⟨2, 0, 0⟩) rfl 2
      (by norm_num [dangle_par_at_impact, dot3])).2
      (Or.inr (by norm_num))

theorem trim_mask_lt (xs : List ℚ) (hmono : xs.Chain' (· ≤ ·))
    (i j : ℕ) (hij : i < j) (hj : j < xs.length)
    (hmi : trim_mask xs i = true) (hmj : trim_mask xs j = true) :
    xs.getD i 0 < xs.getD j 0 := by
  have hpair : xs.Pairwise (· ≤ ·) := List.chain'_iff_pairwise.1 hmono
  have hle : ∀ a b : ℕ, a ≤ b → b < xs.length → xs.getD a 0 ≤ xs.getD b 0 := by
    intro a b hab hb
    rcases lt_or_eq_of_le hab with h | h
    · have := (List.pairwise_iff_get.1 hpair) ⟨a, lt_of_le_of_lt hab hb⟩ ⟨b, hb⟩ h
      rwa [List.getD_eq_getElem _ _ (lt_of_le_of_lt hab hb), List.getD_eq_getElem _ _ hb]
    · rw [h]
  rw [trim_mask] at hmi hmj
  simp only [decide_eq_true_eq] at hmi hmj
  rcases hmi with ⟨hgt, _⟩ | ⟨hgt, hhalf⟩
  · -- mask i fired on the first-half condition: xs[i] < xs[i+1] ≤ xs[j]
    have hi1 : (i + 1) % xs.length = i + 1 :=
      Nat.mod_eq_of_lt (lt_of_le_of_lt hij hj)
    rw [hi1] at hgt
    exact lt_of_lt_of_le (sub_pos.1 hgt) (hle (i + 1) j hij hj)
  · -- mask i fired on the second-half condition, hence so must mask j
    rcases hmj with ⟨_, hhalfj⟩ | ⟨hgtj, _⟩
    · exact absurd (lt_of_le_of_lt (le_trans hhalf (le_of_lt hij)) hhalfj)
        (lt_irrefl _)
    · have hj1 : (j + xs.length - 1) % xs.length = j - 1 := by
        have h1 : 1 ≤ j := by omega
        have h2 : j + xs.length - 1 = xs.length + (j - 1) := by omega
        rw [h2, Nat.add_mod_left, Nat.mod_eq_of_lt (by omega)]
      rw [hj1] at hgtj
      exact lt_of_le_of_lt (hle i (j - 1) (by omega) (by omega)) (sub_pos.1 hgtj)

/-- C9: if the knot vector of the spline-derived PPoly is non-decreasing, the
trimming mask of `_determine_deltaOmegaTheta_kick` leaves a strictly
increasing breakpoint sequence `_kick_interpdOpar_poly.x` (in particular it
removes every zero-length interval, wherever the repeated knots lie). -/
theorem trimmed_poly_x_strict_mono (xs : List ℚ) (hmono : xs.Chain' (· ≤ ·)) :
    (trimmed_poly_x xs).Chain' (· < ·) := by
  have hpair : (nzIndx xs).Pairwise (fun i j => xs.getD i 0 < xs.getD j 0) := by
    unfold nzIndx
    have h0 : (List.range xs.length).Pairwise (· < ·) := List.pairwise_lt_range _
    have h1 : (List.range xs.length).Pairwise
        (fun i j => trim_mask xs i = true → trim_mask xs j = true →
          xs.getD i 0 < xs.getD j 0) := by
      refine h0.imp_of_mem ?_
      intro a b _ hb hab
      exact fun hma hmb => trim_mask_lt xs hmono a b hab (List.mem_range.1 hb) hma hmb
    refine (h1.filter (trim_mask xs)).imp_of_mem ?_
    intro a b ha hb hab
    exact hab (List.mem_filter.1 ha).2 (List.mem_filter.1 hb).2
  exact ((List.pairwise_map).2 hpair).chain'

/-- Sanity witness for `trimmed_poly_x_strict_mono` on a knot vector with
repeated boundary knots. -/
theorem trimmed_poly_x_strict_mono_witness :
    ([0, 0, 0, 1, 2, 3, 3, 3] : List ℚ).Chain' (· ≤ ·) ∧
      (trimmed_poly_x [0, 0, 0, 1, 2, 3, 3, 3]).Chain' (· < ·) :=
  ⟨by norm_num, trimmed_poly_x_strict_mono _ (by norm_num)⟩

/-- C8: `HernquistX` raises ValueError exactly on negative arguments and
returns the piecewise closed form on nonnegative ones: the log/sqrt form for
s < 1, exactly 1 at the removable singularity s = 1, and the arccos/sqrt form
for s > 1. -/
theorem HernquistX_spec (s : ℝ) :
    (s < 0 → HernquistX s = Except.error "s must be positive in Hernquist X function") ∧
    (0 ≤ s → HernquistX s = Except.ok (hernquistXval s)) ∧
    (0 ≤ s → s < 1 → HernquistX s =
      Except.ok (Real.log ((1 + Real.sqrt (1 - s * s)) / s) / Real.sqrt (1 - s * s))) ∧
    (s = 1 → HernquistX s = Except.ok 1) ∧
    (1 < s → HernquistX s =
      Except.ok (Real.arccos (1 / s) / Real.sqrt (s * s - 1))) := by
  refine ⟨fun h => ?_, fun h => ?_, fun h h1 => ?_, fun h => ?_, fun h => ?_⟩
  · unfold HernquistX
    rw [if_pos h]
  · unfold HernquistX
    rw [if_neg (not_lt.2 h)]
  · unfold HernquistX hernquistXval
    rw [if_neg (not_lt.2 h), if_pos h1]
  · subst h
    unfold HernquistX hernquistXval
    rw [if_neg (by norm_num), if_neg (by norm_num), if_pos rfl]
  · unfold HernquistX hernquistXval
    rw [if_neg (not_lt.2 (le_of_lt (lt_trans one_pos h))),
        if_neg (not_lt.2 (le_of_lt h)), if_neg (ne_of_gt h)]

/-- Sanity witness for `HernquistX_spec`: the removable singularity at 1 and
the fault at -1. -/
theorem HernquistX_spec_witness :
    HernquistX 1 = Except.ok 1 ∧
      HernquistX (-1) = Except.error "s must be positive in Hernquist X function" :=
  ⟨(HernquistX_spec 1).2.2.2.1 rfl, (HernquistX_spec (-1)).1 (by norm_num)⟩

/-- C7 (amended): for `|wperp| < 1e-10` both kick calculators take the
degenerate branch, whose components contain no division by `wperp`; their
common denominator is nonzero under the natural nondegeneracy hypotheses, so
the result is a finite real vector.  (The claimed equality with the
`wperp -> 0` limit of the general branch fails; see the counterexample.) -/
theorem deltav_degenerate_branch_spec (tilew : RVec3) (vmag y b GM rs : ℝ)
    (h : |Real.sqrt (tilew.x ^ 2 + tilew.z ^ 2)| < 1e-10) :
    (let wperp := Real.sqrt (tilew.x ^ 2 + tilew.z ^ 2)
     let wpar := vmag - tilew.y
     let wmag2 := wpar ^ 2 + wperp ^ 2
     let denomP := Real.sqrt wmag2 * ((b ^ 2 + rs ^ 2) * wmag2 + wperp ^ 2 * y ^ 2)
     impulse_deltav_plummer_rot tilew vmag y b GM rs =
        ⟨2 * GM * ((b * wmag2 - y * wpar * tilew.x) / denomP),
         2 * GM * (-(wperp ^ 2) * y / denomP),
         2 * GM * (-((b * wmag2 + y * wpar * tilew.z) / denomP))⟩
      ∧ (0 < b → wpar ≠ 0 → 0 < denomP)) ∧
    (let wperp := Real.sqrt (tilew.x ^ 2 + tilew.z ^ 2)
     let wpar := vmag - tilew.y
     let wmag2 := wpar ^ 2 + wperp ^ 2
     let B := Real.sqrt (b ^ 2 + wperp ^ 2 * y ^ 2 / wmag2)
     let denomH := (Real.sqrt wmag2 * (B ^ 2 - rs ^ 2))⁻¹
     let XfacH := 1 - 2 * rs / (rs + B) * hernquistXval (Real.sqrt (2 * B / (rs + B)))
     impulse_deltav_hernquist_rot tilew vmag y b GM rs =
        ⟨2 * GM * ((b - y * wpar * tilew.x / wmag2) * denomH * XfacH),
         2 * GM * (-(wperp ^ 2) * y * denomH * XfacH / wmag2),
         2 * GM * (-((b + y * wpar * tilew.z / wmag2) * denomH * XfacH))⟩
      ∧ (wpar ≠ 0 → B ^ 2 - rs ^ 2 ≠ 0 →
          Real.sqrt wmag2 * (B ^ 2 - rs ^ 2) ≠ 0)) := by
  have hm2 : ∀ w : ℝ, w ≠ 0 →
      (0 : ℝ) < w ^ 2 + Real.sqrt (tilew.x ^ 2 + tilew.z ^ 2) ^ 2 :=
    fun w hw => add_pos_of_pos_of_nonneg (pow_two_pos_of_ne_zero hw) (sq_nonneg _)
  constructor
  · constructor
    · simp only [impulse_deltav_plummer_rot, h, if_true]
    · intro hb hw
      have h1 := hm2 _ hw
      refine mul_pos (Real.sqrt_pos.2 h1) (add_pos_of_pos_of_nonneg ?_ ?_)
      · exact mul_pos (add_pos_of_pos_of_nonneg (pow_pos hb 2) (sq_nonneg rs)) h1
      · positivity
  · constructor
    · simp only [impulse_deltav_hernquist_rot, h, if_true]
    · intro hw hB
      exact mul_ne_zero (ne_of_gt (Real.sqrt_pos.2 (hm2 _ hw))) hB

/-- Sanity witness for `deltav_degenerate_branch_spec` on an exactly aligned
relative velocity. -/
theorem deltav_degenerate_branch_spec_witness :
    |Real.sqrt ((0 : ℝ) ^ 2 + (0 : ℝ) ^ 2)| < 1e-10 ∧
      (impulse_deltav_plummer_rot ⟨0, 0, 0⟩ 1 0 1 (1/2) 0).x = 1 := by
  have h0 : |Real.sqrt ((0 : ℝ) ^ 2 + (0 : ℝ) ^ 2)| < 1e-10 := by
    rw [show ((0 : ℝ) ^ 2 + (0 : ℝ) ^ 2) = 0 by norm_num, Real.sqrt_zero]
    norm_num
  refine ⟨h0, ?_⟩
  have h := ((deltav_degenerate_branch_spec ⟨0, 0, 0⟩ 1 0 1 (1/2) 0 h0).1).1
  rw [h]
  norm_num [Real.sqrt_zero, Real.sqrt_one]

theorem continuous_gauss : Continuous fun t : ℝ => Real.exp (-t ^ 2) :=
  Real.continuous_exp.comp (continuous_pow 2).neg

theorem hasDerivAt_gauss (t : ℝ) :
    HasDerivAt (fun u : ℝ => Real.exp (-u ^ 2)) (Real.exp (-t ^ 2) * -(2 * t)) t := by
  have h1 : HasDerivAt (fun u : ℝ => -u ^ 2) (-(2 * t)) t := by
    simpa using (hasDerivAt_pow 2 t).neg
  exact h1.exp

theorem hasDerivAt_erf (u : ℝ) :
    HasDerivAt erf (2 / Real.sqrt Real.pi * Real.exp (-u ^ 2)) u := by
  have h1 : HasDerivAt (fun x : ℝ => ∫ t in (0 : ℝ)..x, Real.exp (-t ^ 2))
      (Real.exp (-u ^ 2)) u :=
    intervalIntegral.integral_hasDerivAt_right
      (continuous_gauss.intervalIntegrable 0 u)
      (continuous_gauss.stronglyMeasurableAtFilter _ _)
      continuous_gauss.continuousAt
  exact h1.const_mul (2 / Real.sqrt Real.pi)

/-- Integration by parts for the Gaussian-weighted monomials: the exact
content of the recursion step of the table. -/
theorem gaussxpoly_parts (a b : ℝ) (m : ℕ) :
    ∫ t in a..b, (2 * t ^ (m + 2) - ((m : ℝ) + 1) * t ^ m) * Real.exp (-t ^ 2)
      = a ^ (m + 1) * Real.exp (-a ^ 2) - b ^ (m + 1) * Real.exp (-b ^ 2) := by
  have hd : ∀ t : ℝ, HasDerivAt (fun u : ℝ => -(u ^ (m + 1) * Real.exp (-u ^ 2)))
      ((2 * t ^ (m + 2) - ((m : ℝ) + 1) * t ^ m) * Real.exp (-t ^ 2)) t := by
    intro t
    have h1 : HasDerivAt (fun u : ℝ => u ^ (m + 1)) (((m : ℝ) + 1) * t ^ m) t := by
      simpa using hasDerivAt_pow (m + 1) t
    have h2 := (h1.mul (hasDerivAt_gauss t)).neg
    convert h2 using 1
    ring
  have hcont : Continuous fun t : ℝ =>
      (2 * t ^ (m + 2) - ((m : ℝ) + 1) * t ^ m) * Real.exp (-t ^ 2) :=
    ((continuous_const.mul (continuous_pow _)).sub
      (continuous_const.mul (continuous_pow _))).mul continuous_gauss
  have := intervalIntegral.integral_eq_sub_of_hasDerivAt (fun t _ => hd t)
    (hcont.intervalIntegrable a b)
  rw [this]
  ring

theorem gaussxpoly_base1 (a b : ℝ) :
    ∫ t in a..b, 2 / Real.sqrt Real.pi * t ^ 1 * Real.exp (-t ^ 2)
      = 1 / Real.sqrt Real.pi * (Real.exp (-a ^ 2) - Real.exp (-b ^ 2)) := by
  have hd : ∀ t : ℝ, HasDerivAt (fun u : ℝ => -(1 / Real.sqrt Real.pi) * Real.exp (-u ^ 2))
      (2 / Real.sqrt Real.pi * t ^ 1 * Real.exp (-t ^ 2)) t := by
    intro t
    have h2 := (hasDerivAt_gauss t).const_mul (-(1 / Real.sqrt Real.pi))
    convert h2 using 1
    ring
  have hcont : Continuous fun t : ℝ => 2 / Real.sqrt Real.pi * t ^ 1 * Real.exp (-t ^ 2) :=
    (continuous_const.mul (continuous_pow _)).mul continuous_gauss
  have := intervalIntegral.integral_eq_sub_of_hasDerivAt (fun t _ => hd t)
    (hcont.intervalIntegrable a b)
  rw [this]
  ring

theorem gaussxpoly_base2 (a b : ℝ) :
    ∫ t in a..b, 2 / Real.sqrt Real.pi * t ^ 2 * Real.exp (-t ^ 2)
      = 1 / Real.sqrt Real.pi * (Real.exp (-a ^ 2) * a - Real.exp (-b ^ 2) * b)
        + 1 / 2 * (erf b - erf a) := by
  have hd : ∀ t : ℝ, HasDerivAt
      (fun u : ℝ => -(1 / Real.sqrt Real.pi) * (u * Real.exp (-u ^ 2)) + 1 / 2 * erf u)
      (2 / Real.sqrt Real.pi * t ^ 2 * Real.exp (-t ^ 2)) t := by
    intro t
    have h1 : HasDerivAt (fun u : ℝ => u * Real.exp (-u ^ 2))
        (1 * Real.exp (-t ^ 2) + t * (Real.exp (-t ^ 2) * -(2 * t))) t :=
      (hasDerivAt_id t).mul (hasDerivAt_gauss t)
    have h2 := (h1.const_mul (-(1 / Real.sqrt Real.pi))).add
      ((hasDerivAt_erf t).const_mul (1 / 2))
    convert h2 using 1
    ring
  have hcont : Continuous fun t : ℝ => 2 / Real.sqrt Real.pi * t ^ 2 * Real.exp (-t ^ 2) :=
    (continuous_const.mul (continuous_pow _)).mul continuous_gauss
  have := intervalIntegral.integral_eq_sub_of_hasDerivAt (fun t _ => hd t)
    (hcont.intervalIntegrable a b)
  rw [this]
  ring

theorem gaussxpoly_step (a b : ℝ) (j : ℕ) :
    ∫ t in a..b, 2 / Real.sqrt Real.pi * t ^ (j + 3) * Real.exp (-t ^ 2)
      = 1 / Real.sqrt Real.pi *
          (Real.exp (-a ^ 2) * a ^ (j + 2) - Real.exp (-b ^ 2) * b ^ (j + 2))
        + 1 / 2 * ((j : ℝ) + 2) *
          ∫ t in a..b, 2 / Real.sqrt Real.pi * t ^ (j + 1) * Real.exp (-t ^ 2) := by
  have hpow : ∀ m : ℕ, IntervalIntegrable (fun t : ℝ => t ^ m * Real.exp (-t ^ 2))
      MeasureTheory.volume a b :=
    fun m => ((continuous_pow m).mul continuous_gauss).intervalIntegrable a b
  have hc1 : ∀ m : ℕ, (∫ t in a..b, 2 / Real.sqrt Real.pi * t ^ m * Real.exp (-t ^ 2))
      = 2 / Real.sqrt Real.pi * ∫ t in a..b, t ^ m * Real.exp (-t ^ 2) := by
    intro m
    rw [← intervalIntegral.integral_const_mul]
    congr 1
    funext t
    ring
  have hsplit : (∫ t in a..b,
        (2 * t ^ (j + 3) - ((j : ℝ) + 2) * t ^ (j + 1)) * Real.exp (-t ^ 2))
      = 2 * (∫ t in a..b, t ^ (j + 3) * Real.exp (-t ^ 2))
        - ((j : ℝ) + 2) * ∫ t in a..b, t ^ (j + 1) * Real.exp (-t ^ 2) := by
    rw [← intervalIntegral.integral_const_mul, ← intervalIntegral.integral_const_mul,
        ← intervalIntegral.integral_sub ((hpow _).const_mul 2) ((hpow _).const_mul _)]
    congr 1
    funext t
    ring
  have hparts : (∫ t in a..b,
        (2 * t ^ (j + 3) - ((j : ℝ) + 2) * t ^ (j + 1)) * Real.exp (-t ^ 2))
      = a ^ (j + 2) * Real.exp (-a ^ 2) - b ^ (j + 2) * Real.exp (-b ^ 2) := by
    have h := gaussxpoly_parts a b (j + 1)
    have e1 : ((j + 1 : ℕ) : ℝ) + 1 = (j : ℝ) + 2 := by push_cast; ring
    simp only [e1] at h
    exact h
  have hI : 2 * (∫ t in a..b, t ^ (j + 3) * Real.exp (-t ^ 2))
      - ((j : ℝ) + 2) * (∫ t in a..b, t ^ (j + 1) * Real.exp (-t ^ 2))
      = a ^ (j + 2) * Real.exp (-a ^ 2) - b ^ (j + 2) * Real.exp (-b ^ 2) := by
    rw [← hsplit]
    exact hparts
  rw [hc1 (j + 3), hc1 (j + 1)]
  linear_combination (1 / Real.sqrt Real.pi) * hI

/-- Each row of the recursion equals the corresponding Gaussian x monomial
integral in exact real arithmetic. -/
theorem gaussxpolyIntRow_eq (ll ul : ℝ) :
    ∀ k : ℕ, 1 ≤ k → gaussxpolyIntRow ll ul k
      = ∫ t in ll..ul, 2 / Real.sqrt Real.pi * t ^ k * Real.exp (-t ^ 2) := by
  intro k
  induction k using Nat.strong_induction_on with
  | _ k ih =>
    match k with
    | 0 => intro h; exact absurd h (by norm_num)
    | 1 => intro _; rw [gaussxpolyIntRow, gaussxpoly_base1]
    | 2 => intro _; rw [gaussxpolyIntRow, gaussxpoly_base2]
    | (j + 3) =>
      intro _
      rw [gaussxpolyIntRow, gaussxpoly_step,
        ih (j + 1) (by omega) (by omega)]

/-- C4: for all real bounds and every `maxj >= 2`, the row at index `-k`
(for `1 <= k <= maxj`) of the table built by
`_densMoments_approx_higherorder_gaussxpolyInts` equals, in exact real
arithmetic, the definite integral from `ll` to `ul` of
`2/sqrt(pi) * t^k * exp(-t^2)`: the hard-coded base cases for `k = 1, 2` and
the integration-by-parts recursion produce exactly these integrals. -/
theorem gaussxpolyInts_rows_spec (ll ul : ℝ) (maxj k : ℕ)
    (hm : 2 ≤ maxj) (hk1 : 1 ≤ k) (hk : k ≤ maxj) :
    (densMoments_approx_higherorder_gaussxpolyInts ll ul maxj).getD (maxj - k) 0
      = ∫ t in ll..ul, 2 / Real.sqrt Real.pi * t ^ k * Real.exp (-t ^ 2) := by
  unfold densMoments_approx_higherorder_gaussxpolyInts
  rw [List.getD_eq_getElem _ _ (by simpa using by omega : maxj - k < ((List.range maxj).map fun r => gaussxpolyIntRow ll ul (maxj - r)).length)]
  simp only [List.getElem_map, List.getElem_range]
  rw [show maxj - (maxj - k) = k by omega]
  exact gaussxpolyIntRow_eq ll ul k hk1

/-- Sanity witness for `gaussxpolyInts_rows_spec`: the row `-2` of a
three-row table over `[0, 1]`. -/
theorem gaussxpolyInts_rows_spec_witness :
    2 ≤ 3 ∧ 1 ≤ 2 ∧ 2 ≤ 3 ∧
      (densMoments_approx_higherorder_gaussxpolyInts 0 1 3).getD 1 0
        = ∫ t in (0 : ℝ)..1, 2 / Real.sqrt Real.pi * t ^ 2 * Real.exp (-t ^ 2) :=
  ⟨by decide, by decide, by decide,
    gaussxpolyInts_rows_spec 0 1 3 2 (by decide) (by decide) (by decide)⟩

/-- C3: when the parallel-frequency kick spline has order 1 (linear), the
higher-order corrections `_density_par_approx_higherorder` and
`_meanOmega_num_approx_higherorder` return exactly 0 for every input, so the
approximate density and mean-frequency numerator with `higherorder=True`
equal their values with `higherorder=False`. -/
theorem higherorder_linear_spline_zero (s : GapDF) (h : s.spline_order = 1) :
    (∀ Ob lowbindx, density_par_approx_higherorder s Ob lowbindx = 0) ∧
    (∀ Ob lowbindx, meanOmega_num_approx_higherorder s Ob lowbindx = 0) ∧
    (∀ dangle tdisrupt, density_par_approx s dangle tdisrupt true
        = density_par_approx s dangle tdisrupt false) ∧
    (∀ dangle tdisrupt, meanOmega_num_approx s dangle tdisrupt true
        = meanOmega_num_approx s dangle tdisrupt false) := by
  have hd : ∀ Ob lowbindx, density_par_approx_higherorder s Ob lowbindx = 0 := by
    intro Ob lowbindx
    unfold density_par_approx_higherorder
    rw [if_pos h]
  have hm : ∀ Ob lowbindx, meanOmega_num_approx_higherorder s Ob lowbindx = 0 := by
    intro Ob lowbindx
    unfold meanOmega_num_approx_higherorder
    rw [if_pos h]
  refine ⟨hd, hm, fun dangle tdisrupt => ?_, fun dangle tdisrupt => ?_⟩
  · simp [density_par_approx, hd]
  · simp [meanOmega_num_approx, hm]

/-- Sanity witness for `higherorder_linear_spline_zero` at a concrete
order-1 state. -/
theorem higherorder_linear_spline_zero_witness :
    GapDF.spline_order ⟨1, 0, 1, 3, fun _ => 0, 1, fun _ _ => 0⟩ = 1 ∧
      density_par_approx ⟨1, 0, 1, 3, fun _ => 0, 1, fun _ _ => 0⟩ 2 5 true
        = density_par_approx ⟨1, 0, 1, 3, fun _ => 0, 1, fun _ _ => 0⟩ 2 5 false ∧
      meanOmega_num_approx ⟨1, 0, 1, 3, fun _ => 0, 1, fun _ _ => 0⟩ 2 5 true
        = meanOmega_num_approx ⟨1, 0, 1, 3, fun _ => 0, 1, fun _ _ => 0⟩ 2 5 false ∧
      density_par_approx_higherorder ⟨1, 0, 1, 3, fun _ => 0, 1, fun _ _ => 0⟩
          (fun _ => 0) 0 = 0 :=
  ⟨rfl,
    (higherorder_linear_spline_zero _ rfl).2.2.1 2 5,
    (higherorder_linear_spline_zero _ rfl).2.2.2 2 5,
    (higherorder_linear_spline_zero _ rfl).1 (fun _ => 0) 0⟩

/-- C7 counterexample: shrinking the perpendicular velocity of a fixed aligned
configuration, the general-branch x component is identically 0 (so its
`wperp -> 0` limit is 0), while the function with the degenerate branch
returns 1 at the aligned input, which satisfies `|wperp| < 1e-10`.  The output
therefore does not equal the `wperp -> 0` limit of the general-branch formula. -/
theorem plummer_degenerate_limit_counterexample :
    |Real.sqrt ((0 : ℝ) ^ 2 + (0 : ℝ) ^ 2)| < 1e-10 ∧
    Filter.Tendsto
      (fun e : ℝ => (impulse_deltav_plummer_rot_general ⟨e, 0, 0⟩ 1 0 1 (1/2) 0).x)
      (nhdsWithin 0 (Set.Ioi 0)) (nhds 0) ∧
    (impulse_deltav_plummer_rot ⟨0, 0, 0⟩ 1 0 1 (1/2) 0).x = 1 := by
  refine ⟨?_, ?_, ?_⟩
  · rw [show ((0 : ℝ) ^ 2 + (0 : ℝ) ^ 2) = 0 by norm_num, Real.sqrt_zero]
    norm_num
  · have hfun : (fun e : ℝ =>
        (impulse_deltav_plummer_rot_general ⟨e, 0, 0⟩ 1 0 1 (1/2) 0).x)
        = fun _ => (0 : ℝ) := by
      funext e
      simp [impulse_deltav_plummer_rot_general]
    rw [hfun]
    exact tendsto_const_nhds
  · unfold impulse_deltav_plummer_rot
    norm_num [Real.sqrt_zero, Real.sqrt_one]

end StreamGap
